import Mathlib

/-!
Verification of the update orchestration engine of `scripts/update-all.py`
(scoop-alts repository).

The Python code is shallowly embedded: strings are `List Char` (Python
strings compared by code point), fallible I/O is `Option`, and the
process-global mutable state (`MANIFEST_VERSION_CACHE`) is threaded
explicitly.  Each definition mirrors one Python function of the source;
external collaborators (`json.loads`, `re.search`, subprocess execution,
the worker pool) are modelled by executable Lean functions or explicit
parameters, as noted at each definition.
-/

namespace UpdateAll

/-- Python strings, represented as their list of characters. -/
abbrev Str := List Char

/-- Test whether `pat` occurs at the start of `s` (`str.startswith`). -/
def isPre : Str → Str → Bool
  | [], _ => true
  | _ :: _, [] => false
  | p :: ps, c :: cs => p = c && isPre ps cs

/-- Test whether `needle` occurs as a contiguous substring of `hay` (Python `in`). -/
def hasSub (needle : Str) : Str → Bool
  | [] => isPre needle []
  | c :: rest => isPre needle (c :: rest) || hasSub needle rest

/-- Characters matched by Python's `\s` and stripped by `str.strip()`:
space, tab, newline, carriage return, vertical tab, form feed. -/
def isPyWs (c : Char) : Bool :=
  c = ' ' || c = '\t' || c = '\n' || c = '\r' ||
  c = Char.ofNat 11 || c = Char.ofNat 12

/-- Python `str.strip()`: drop leading and trailing whitespace. -/
def pyStrip (s : Str) : Str :=
  ((s.dropWhile isPyWs).reverse.dropWhile isPyWs).reverse

/-- ASCII lower-casing of one character (`str.lower` on the ASCII inputs
the orchestrator compares against). -/
def asciiLower (c : Char) : Char :=
  if 'A' ≤ c ∧ c ≤ 'Z' then Char.ofNat (c.toNat + 32) else c

/-- Python `str.lower()` (ASCII range). -/
def pyLower (s : Str) : Str := s.map asciiLower

/-- One pass of Python `str.replace(pat, rep)` (all occurrences,
left to right, non-overlapping); `fuel` bounds the recursion. -/
def pyReplaceF : Nat → Str → Str → Str → Str
  | 0, s, _, _ => s
  | fuel + 1, s, pat, rep =>
    match s with
    | [] => []
    | c :: rest =>
      if isPre pat (c :: rest) && pat.length ≠ 0 then
        rep ++ pyReplaceF fuel ((c :: rest).drop pat.length) pat rep
      else
        c :: pyReplaceF fuel rest pat rep

/-- Python `str.replace(pat, rep)`. -/
def pyReplace (s pat rep : Str) : Str := pyReplaceF s.length s pat rep

/-- Package name derived from a script name:
`script_name.replace('update-', '').replace('.py', '')`. -/
def derivePkg (scriptName : Str) : Str :=
  pyReplace (pyReplace scriptName "update-".data "".data) ".py".data "".data

/-- Line-break characters of Python `str.splitlines` (the `\r\n` pair is
handled separately). -/
def isLineBreak (c : Char) : Bool :=
  c = '\n' || c = '\r' || c = Char.ofNat 11 || c = Char.ofNat 12 ||
  c = Char.ofNat 28 || c = Char.ofNat 29 || c = Char.ofNat 30 ||
  c = Char.ofNat 133 || c = Char.ofNat 8232 || c = Char.ofNat 8233

/-- Worker for `pySplitlines`: `cur` is the current line, reversed. -/
def splitlinesAux : Str → Str → List Str
  | [], cur => [cur.reverse]
  | '\r' :: '\n' :: rest, cur =>
    cur.reverse :: (if rest.isEmpty then [] else splitlinesAux rest [])
  | c :: rest, cur =>
    if isLineBreak c then
      cur.reverse :: (if rest.isEmpty then [] else splitlinesAux rest [])
    else
      splitlinesAux rest (c :: cur)

/-- Python `str.splitlines()`: a trailing terminator yields no empty final
line, and the empty string yields no lines. -/
def pySplitlines (s : Str) : List Str :=
  if s.isEmpty then [] else splitlinesAux s []

/-- The in-memory `MANIFEST_VERSION_CACHE` (a Python dict from package
name to version string); newest binding first. -/
abbrev Cache := List (Str × Str)

/-- Dict lookup (`dict.get`). -/
def cacheLookup : Cache → Str → Option Str
  | [], _ => none
  | (k, v) :: rest, key => if k = key then some v else cacheLookup rest key

/-- Dict assignment (`dict[k] = v`); newest binding shadows older ones. -/
def cacheInsert (c : Cache) (k v : Str) : Cache := (k, v) :: c

/-- JSON values as produced by `json.loads` (numbers are kept as their
raw lexeme: the orchestrator only ever tests them for truthiness). -/
inductive JVal where
  | jnull
  | jbool (b : Bool)
  | jstr (s : Str)
  | jnum (raw : Str)
  | jobj (fields : List (Str × JVal))
  | jarr (elems : List JVal)
deriving Repr

/-- JSON structural whitespace (RFC 8259 / `json.loads`). -/
def isJWs (c : Char) : Bool := c = ' ' || c = '\t' || c = '\n' || c = '\r'

/-- Skip JSON structural whitespace. -/
def skipJWs (s : Str) : Str := s.dropWhile isJWs

/-- Parse four hex digits into a code point. -/
def hex4 : Str → Option (Nat × Str)
  | a :: b :: c :: d :: rest =>
    let dig (x : Char) : Option Nat :=
      if '0' ≤ x ∧ x ≤ '9' then some (x.toNat - '0'.toNat)
      else if 'a' ≤ x ∧ x ≤ 'f' then some (x.toNat - 'a'.toNat + 10)
      else if 'A' ≤ x ∧ x ≤ 'F' then some (x.toNat - 'A'.toNat + 10)
      else none
    match dig a, dig b, dig c, dig d with
    | some w, some x, some y, some z => some (((w * 16 + x) * 16 + y) * 16 + z, rest)
    | _, _, _, _ => none
  | _ => none

/-- Parse the body of a JSON string (opening quote already consumed);
`json.loads` in strict mode rejects raw control characters. -/
def parseJStr : Nat → Str → Option (Str × Str)
  | 0, _ => none
  | _, [] => none
  | fuel + 1, c :: rest =>
    if c = '"' then some ([], rest)
    else if c = '\\' then
      match rest with
      | [] => none
      | e :: rest2 =>
        let cont (ch : Char) (r : Str) : Option (Str × Str) :=
          match parseJStr fuel r with
          | some (s, r2) => some (ch :: s, r2)
          | none => none
        if e = '"' then cont '"' rest2
        else if e = '\\' then cont '\\' rest2
        else if e = '/' then cont '/' rest2
        else if e = 'b' then cont (Char.ofNat 8) rest2
        else if e = 'f' then cont (Char.ofNat 12) rest2
        else if e = 'n' then cont '\n' rest2
        else if e = 'r' then cont '\r' rest2
        else if e = 't' then cont '\t' rest2
        else if e = 'u' then
          match hex4 rest2 with
          | some (n, rest3) => cont (Char.ofNat n) rest3
          | none => none
        else none
    else if c.toNat < 32 then none
    else
      match parseJStr fuel rest with
      | some (s, r2) => some (c :: s, r2)
      | none => none

/-- Decimal digit test. -/
def isDigit (c : Char) : Bool := '0' ≤ c && c ≤ '9'

/-- Lex a JSON number (leading sign/zero rules of `json.loads`),
returning the raw lexeme and the rest. -/
def lexJNum (s : Str) : Option (Str × Str) :=
  let signed : Str × Str :=
    match s with
    | '-' :: rest => (['-'], rest)
    | _ => ([], s)
  let (sgn, s1) := signed
  let intPart : Option (Str × Str) :=
    match s1 with
    | '0' :: rest => some (['0'], rest)
    | c :: rest =>
      if isDigit c ∧ c ≠ '0' then
        some (c :: rest.takeWhile isDigit, rest.dropWhile isDigit)
      else none
    | [] => none
  match intPart with
  | none => none
  | some (ip, s2) =>
    let frac : Option (Str × Str) :=
      match s2 with
      | '.' :: rest =>
        if (rest.takeWhile isDigit).isEmpty then none
        else some ('.' :: rest.takeWhile isDigit, rest.dropWhile isDigit)
      | _ => some ([], s2)
    match frac with
    | none => none
    | some (fp, s3) =>
      let expo : Option (Str × Str) :=
        match s3 with
        | e :: rest =>
          if e = 'e' ∨ e = 'E' then
            let (sg, rest2) :=
              match rest with
              | '+' :: r => (['+'], r)
              | '-' :: r => (['-'], r)
              | _ => (([] : Str), rest)
            if (rest2.takeWhile isDigit).isEmpty then none
            else some (e :: sg ++ rest2.takeWhile isDigit, rest2.dropWhile isDigit)
          else some ([], s3)
        | [] => some ([], s3)
      match expo with
      | none => none
      | some (ep, s4) => some (sgn ++ ip ++ fp ++ ep, s4)

mutual

/-- Parse one JSON value (leading whitespace already skipped). -/
def parseJVal : Nat → Str → Option (JVal × Str)
  | 0, _ => none
  | fuel + 1, s =>
    match s with
    | [] => none
    | '\x7b' :: rest =>
      match skipJWs rest with
      | '\x7d' :: rest2 => some (.jobj [], rest2)
      | rest2 =>
        match parseJFields fuel rest2 with
        | some (fs, rest3) => some (.jobj fs, rest3)
        | none => none
    | '[' :: rest =>
      match skipJWs rest with
      | ']' :: rest2 => some (.jarr [], rest2)
      | rest2 =>
        match parseJElems fuel rest2 with
        | some (es, rest3) => some (.jarr es, rest3)
        | none => none
    | '"' :: rest =>
      match parseJStr fuel rest with
      | some (str, rest2) => some (.jstr str, rest2)
      | none => none
    | 't' :: 'r' :: 'u' :: 'e' :: rest => some (.jbool true, rest)
    | 'f' :: 'a' :: 'l' :: 's' :: 'e' :: rest => some (.jbool false, rest)
    | 'n' :: 'u' :: 'l' :: 'l' :: rest => some (.jnull, rest)
    | _ =>
      match lexJNum s with
      | some (raw, rest) => some (.jnum raw, rest)
      | none => none

/-- Parse `"key": value (, "key": value)*` inside an object. -/
def parseJFields : Nat → Str → Option (List (Str × JVal) × Str)
  | 0, _ => none
  | fuel + 1, s =>
    match s with
    | '"' :: rest =>
      match parseJStr fuel rest with
      | some (key, rest2) =>
        match skipJWs rest2 with
        | ':' :: rest3 =>
          match parseJVal fuel (skipJWs rest3) with
          | some (v, rest4) =>
            match skipJWs rest4 with
            | ',' :: rest5 =>
              match parseJFields fuel (skipJWs rest5) with
              | some (fs, rest6) => some ((key, v) :: fs, rest6)
              | none => none
            | '\x7d' :: rest5 => some ([(key, v)], rest5)
            | _ => none
          | none => none
        | _ => none
      | none => none
    | _ => none

/-- Parse `value (, value)*` inside an array. -/
def parseJElems : Nat → Str → Option (List JVal × Str)
  | 0, _ => none
  | fuel + 1, s =>
    match parseJVal fuel s with
    | some (v, rest) =>
      match skipJWs rest with
      | ',' :: rest2 =>
        match parseJElems fuel (skipJWs rest2) with
        | some (es, rest3) => some (v :: es, rest3)
        | none => none
      | ']' :: rest2 => some ([v], rest2)
      | _ => none
    | none => none

end

/-- Model of `json.loads`: one JSON document, optionally surrounded by
whitespace; trailing data is an error ("Extra data"). -/
def jparse (s : Str) : Option JVal :=
  match parseJVal (s.length + 1) (skipJWs s) with
  | some (v, rest) => if (skipJWs rest).isEmpty then some v else none
  | none => none

/-- Python dict.get on parsed JSON object fields; with duplicate keys
`json.loads` keeps the last occurrence. -/
def jget (fields : List (Str × JVal)) (key : Str) : Option JVal :=
  fields.foldl (fun acc kv => if kv.1 = key then some kv.2 else acc) none

/-- Python truthiness of a JSON value (`bool(v)`). -/
def jtruthy : JVal → Bool
  | .jnull => false
  | .jbool b => b
  | .jstr s => !s.isEmpty
  | .jnum raw => (raw.takeWhile (fun c => c ≠ 'e' ∧ c ≠ 'E')).any
      (fun c => '1' ≤ c && c ≤ '9')
  | .jobj fs => !fs.isEmpty
  | .jarr es => !es.isEmpty

/-- Truthiness of `obj.get(key)`: `bool(None)` is `False`. -/
def jtruthyOpt : Option JVal → Bool
  | none => false
  | some v => jtruthy v

/-- The `UpdateResult` dataclass of `update-all.py` (durations, wall-clock
floats in the source, are abstracted as `Nat`). -/
structure UpdateResult where
  script_name : Str
  success : Bool
  output : Str
  duration : Nat
  updated : Bool
deriving Repr, DecidableEq

/-! Section: output parser (`parse_script_output`).

The source scans the output with
`re.search(r'\{.*"updated"\s*:\s*(true|false|null).*\}', output, re.DOTALL)`.
With both `.*` greedy and `re.DOTALL`, the match (when one exists) runs
from the first feasible `{` to the last `}` that follows the body
pattern; the functions below compute exactly that span. -/

/-- Does `"updated"\s*:\s*(true|false|null)` match at the head of `cs`?
Returns the number of characters consumed. -/
def keyOccAt (cs : Str) : Option Nat :=
  if isPre "\"updated\"".data cs then
    let rest := cs.drop 9
    let w1 := (rest.takeWhile isPyWs).length
    match rest.drop w1 with
    | ':' :: rest2 =>
      let w2 := (rest2.takeWhile isPyWs).length
      let rest3 := rest2.drop w2
      if isPre "true".data rest3 then some (9 + w1 + 1 + w2 + 4)
      else if isPre "false".data rest3 then some (9 + w1 + 1 + w2 + 5)
      else if isPre "null".data rest3 then some (9 + w1 + 1 + w2 + 4)
      else none
    | _ => none
  else none

/-- End index (exclusive) of the first occurrence of the body pattern
starting at index `i` or later. -/
def firstKeyEndAux (cs : Str) : Nat → Nat → Option Nat
  | 0, _ => none
  | fuel + 1, i =>
    match keyOccAt (cs.drop i) with
    | some len => some (i + len)
    | none => firstKeyEndAux cs fuel (i + 1)

/-- End index (exclusive) of the first body-pattern occurrence at `≥ i`. -/
def firstKeyEndFrom (cs : Str) (i : Nat) : Option Nat :=
  firstKeyEndAux cs (cs.length + 1 - i) i

/-- Index of the last `'\x7d'` at position `≥ k`. -/
def lastBraceGe (cs : Str) (k : Nat) : Option Nat :=
  (List.range cs.length).foldl
    (fun acc q => if k ≤ q ∧ cs.getD q ' ' = '\x7d' then some q else acc) none

/-- If the regex can complete a match whose `\{` is at index `i`, the
index of the final `'\x7d'` of the (greedy) match. -/
def feasibleAt (cs : Str) (i : Nat) : Option Nat :=
  match firstKeyEndFrom cs (i + 1) with
  | some e => lastBraceGe cs e
  | none => none

/-- Scan for the leftmost feasible `'\x7b'`. -/
def spanAux (cs : Str) : Nat → Nat → Option (Nat × Nat)
  | 0, _ => none
  | fuel + 1, i =>
    if cs.getD i ' ' = '\x7b' then
      match feasibleAt cs i with
      | some q => some (i, q)
      | none => spanAux cs fuel (i + 1)
    else spanAux cs fuel (i + 1)

/-- The span `(start, lastBrace)` of
`re.search(r'\{.*"updated"\s*:\s*(true|false|null).*\}', output, re.DOTALL)`,
if the regex matches. -/
def regexSpan (cs : Str) : Option (Nat × Nat) := spanAux cs cs.length 0

/-- Phase 1 of `parse_script_output`: regex scan, then `json.loads` on
`match.group(0)`; accepted only if the result is a dict with an
`'updated'` key. -/
def extractEmbedded (output : Str) : Option (List (Str × JVal)) :=
  match regexSpan output with
  | some (i, q) =>
    match jparse ((output.drop i).take (q + 1 - i)) with
    | some (.jobj fs) => if (jget fs "updated".data).isSome then some fs else none
    | _ => none
  | none => none

/-- One step of phase 2: scan (already reversed) candidate lines for a
standalone JSON object with an `'updated'` key. -/
def findStructLine : List Str → Option (List (Str × JVal))
  | [] => none
  | ln :: rest =>
    if ln.head? = some '\x7b' ∧ ln.getLast? = some '\x7d' then
      match jparse ln with
      | some (.jobj fs) =>
        if (jget fs "updated".data).isSome then some fs else findStructLine rest
      | _ => findStructLine rest
    else findStructLine rest

/-- Phase 2 of `parse_script_output`: the last up-to-10 non-empty
stripped lines, scanned in reverse. -/
def extractLastLines (output : Str) : Option (List (Str × JVal)) :=
  let lines := ((pySplitlines (pyStrip output)).map pyStrip).filter
    (fun ln => !ln.isEmpty)
  let lastTen := lines.drop (lines.length - 10)
  findStructLine lastTen.reverse

/-- The structured verdict the source settles on (`structured_updated`
is set by phase 1, else by phase 2, else stays `None`). -/
def extractStructured (output : Str) : Option (List (Str × JVal)) :=
  match extractEmbedded output with
  | some fs => some fs
  | none => extractLastLines output

/-- Version priming, `if (v := parsed.get('version')) and isinstance(v, str):
MANIFEST_VERSION_CACHE[pkg] = v` — priming happens only for a truthy
(non-empty) string value. -/
def primeCache (cache : Cache) (pkg : Str) (fs : List (Str × JVal)) : Cache :=
  match jget fs "version".data with
  | some (.jstr v) => if v.isEmpty then cache else cacheInsert cache pkg v
  | _ => cache

/-- Model of `parse_script_output(output, script_name)`.  The global flag
`PREFER_STRUCTURED_OUTPUT` and the global `MANIFEST_VERSION_CACHE` are
passed explicitly; the returned pair is `(updated, no_update_needed)`
together with the updated cache. -/
def parse_script_output (output script_name : Str) (preferStructured : Bool)
    (cache : Cache) : (Bool × Bool) × Cache :=
  let pkg := derivePkg script_name
  match extractStructured output with
  | some fs =>
    let b := jtruthyOpt (jget fs "updated".data)
    ((b, !b), primeCache cache pkg fs)
  | none =>
    if preferStructured then ((false, false), cache)
    else
      let lower := pyLower output
      ((hasSub "update completed successfully".data lower ||
          hasSub "updated".data lower,
        hasSub "no update needed".data lower ||
          hasSub "up to date".data lower), cache)

/-! Section: task execution (`run_update_script`, retry wrapper, strategies). -/

/-- Render a natural number in decimal. -/
def natToStr (n : Nat) : Str := Nat.toDigits 10 n

/-- Render an integer in decimal (Python f-string interpolation). -/
def intToStr (i : Int) : Str :=
  if i < 0 then '-' :: natToStr i.natAbs else natToStr i.natAbs

/-- Outcome of the child process spawned by `subprocess.run` for one
update script: normal completion with an exit code and captured streams,
`subprocess.TimeoutExpired`, or any other exception. -/
inductive ProcOutcome where
  | completed (returncode : Int) (stdout stderr : Str)
  | timeout
  | exc (msg : Str)

/-- The `detailed_error` string built on a nonzero exit code. -/
def detailed_error (returncode : Int) (stdout stderr : Str) : Str :=
  let error_msg := if stderr.isEmpty then "Unknown error".data else pyStrip stderr
  let stdout_msg := if stdout.isEmpty then "".data else pyStrip stdout
  "Exit code: ".data ++ intToStr returncode ++ "\nSTDERR: ".data ++ error_msg ++
    "\nSTDOUT: ".data ++ stdout_msg

/-- Model of `run_update_script(script_path, timeout)`.  The subprocess outcome
and elapsed duration are parameters; the combined output is
`stdout + stderr`, parsed before branching on the exit code, so the
cache may be primed even on failure.  Every failure path constructs an
`UpdateResult` with `success := false` and `updated := false`. -/
def run_update_script (script_name : Str) (outcome : ProcOutcome)
    (timeout dur : Nat) (preferStructured : Bool) (cache : Cache) :
    UpdateResult × Cache :=
  match outcome with
  | .completed rc stdout stderr =>
    let output := stdout ++ stderr
    let pr := parse_script_output output script_name preferStructured cache
    if rc = 0 then
      (⟨script_name, true, output, dur, pr.1.1⟩, pr.2)
    else
      (⟨script_name, false, detailed_error rc stdout stderr, dur, false⟩, pr.2)
  | .timeout =>
    (⟨script_name, false,
      "Script timed out after ".data ++ natToStr timeout ++ " seconds".data,
      dur, false⟩, cache)
  | .exc msg => (⟨script_name, false, msg, dur, false⟩, cache)

/-- Result of one `run_update_script_with_retry` call: the returned
`UpdateResult`, the number of attempts actually executed, and the list
of back-off sleeps performed between attempts. -/
structure RetryTrace where
  result : UpdateResult
  attempts : Nat
  sleeps : List Nat
deriving Repr, DecidableEq

/-- The retry loop of `run_update_script_with_retry`, started at counter
value `attempt` with `remaining = retries - attempt` iterations left.
`exec` abstracts `run_update_script(script_path, timeout)` at each
attempt index.  On failure with budget left the loop sleeps
`min(30, 2 ** attempt)` seconds for the incremented counter. -/
def retryFrom (exec : Nat → UpdateResult) : Nat → Nat → RetryTrace
  | attempt, 0 => ⟨exec attempt, 1, []⟩
  | attempt, remaining + 1 =>
    if (exec attempt).success then ⟨exec attempt, 1, []⟩
    else
      ⟨(retryFrom exec (attempt + 1) remaining).result,
       (retryFrom exec (attempt + 1) remaining).attempts + 1,
       min 30 (2 ^ (attempt + 1)) :: (retryFrom exec (attempt + 1) remaining).sleeps⟩

/-- Model of `run_update_script_with_retry(script_path, timeout, retries)`:
the loop body runs while `attempt <= retries`, so at least once. -/
def run_update_script_with_retry (exec : Nat → UpdateResult)
    (retries : Nat) : RetryTrace :=
  retryFrom exec 0 retries

/-- The `run_sequential` loop body, carrying the accumulated failure count;
returns the result list and whether the `break` fired.  `exec` abstracts
`run_update_script_with_retry` per script (exactly as the repository's
`test_fail_fast.py` does); the inter-task delay is time-only and has no
bearing on results. -/
def run_sequentialAux (exec : Str → UpdateResult) (fail_fast : Bool)
    (max_fail : Nat) : List Str → Nat → List UpdateResult × Bool
  | [], _ => ([], false)
  | s :: rest, failures =>
    let r := exec s
    if r.success then
      let t := run_sequentialAux exec fail_fast max_fail rest failures
      (r :: t.1, t.2)
    else
      let failures' := failures + 1
      if fail_fast || (decide (max_fail ≠ 0) && decide (max_fail ≤ failures')) then
        ([r], true)
      else
        let t := run_sequentialAux exec fail_fast max_fail rest failures'
        (r :: t.1, t.2)

/-- Model of `run_sequential(scripts, timeout, delay, retries, fail_fast, max_fail)`. -/
def run_sequential (exec : Str → UpdateResult) (scripts : List Str)
    (fail_fast : Bool) (max_fail : Nat) : List UpdateResult × Bool :=
  run_sequentialAux exec fail_fast max_fail scripts 0

/-- Ascending string comparison by code point (Python `sorted` /
`list.sort` on `str` keys). -/
def strLe : Str → Str → Bool
  | [], _ => true
  | _ :: _, [] => false
  | a :: as, b :: bs =>
    if a.toNat < b.toNat then true
    else if b.toNat < a.toNat then false
    else strLe as bs

/-- The result list `run_parallel` returns: results are appended in
worker completion order (`order`, an arbitrary permutation of the task
list) and finally `results.sort(key=lambda x: x.script_name)` runs. -/
def run_parallel (order : List Str) (outcome : Str → UpdateResult) :
    List UpdateResult :=
  (order.map outcome).mergeSort (fun a b => strLe a.script_name b.script_name)

/-- The `UpdateResult` appended when a pooled future raises
(`results.append(UpdateResult(script_path.name, False, str(e), 0, False))`). -/
def pool_exception_result (script_name msg : Str) : UpdateResult :=
  ⟨script_name, false, msg, 0, false⟩

/-! Section: provider classification and per-category semaphores. -/

/-- The `MICROSOFT_DOMAINS` constant of `update-all.py`. -/
def MICROSOFT_DOMAINS : List Str :=
  ["learn.microsoft.com".data, "go.microsoft.com".data,
   "download.microsoft.com".data, "visualstudio.microsoft.com".data]

/-- The `GOOGLE_DOMAINS` constant of `update-all.py`. -/
def GOOGLE_DOMAINS : List Str :=
  ["googleapis.com".data, "storage.googleapis.com".data,
   "dl.google.com".data, "cloudfront.net".data]

/-- Python truthiness filter on an optional string (`x or y` and
`if mapped:` treat `None` and `""` alike). -/
def truthyStr : Option Str → Option Str
  | some s => if s.isEmpty then none else some s
  | none => none

/-- Content-based classification: the first 4KB of the script file is
inspected; a read failure (`file = none`) is swallowed and classified
`other`. -/
def classify_content (file : Option Str) : Str :=
  match file with
  | none => "other".data
  | some full =>
    let content := full.take 4000
    if hasSub "github.com".data content || hasSub "api.github.com".data content then
      "github".data
    else if MICROSOFT_DOMAINS.any (fun d => hasSub d content) then
      "microsoft".data
    else if GOOGLE_DOMAINS.any (fun d => hasSub d content) then
      "google".data
    else "other".data

/-- Model of `classify_provider(path, provider_map)`: override map consulted by
exact script name, then by derived package name
(`provider_map.get(name) or provider_map.get(pkg)`, kept when truthy);
otherwise content inspection.  `file` is the outcome of reading the
script (`none` for an I/O error). -/
def classify_provider (name : Str) (provider_map : Cache)
    (file : Option Str) : Str :=
  let pkg := derivePkg name
  let mapped :=
    match truthyStr (cacheLookup provider_map name) with
    | some m => some m
    | none => truthyStr (cacheLookup provider_map pkg)
  match mapped with
  | some m => m
  | none => classify_content file

/-- Provider categories used for concurrency partitioning. -/
inductive Provider where
  | github
  | microsoft
  | google
  | other
deriving Repr, DecidableEq

/-- Capacity of each category's `threading.BoundedSemaphore` as built in
`run_parallel` (`max_workers` is already capped to
`max(1, min(max_workers, len(scripts)))` at that point):
`max(1, min(limit, max_workers))` per named provider, `max(1, max_workers)`
for `other`. -/
def semCapacity (github_workers microsoft_workers google_workers
    max_workers : Nat) : Provider → Nat
  | .github => max 1 (min github_workers max_workers)
  | .microsoft => max 1 (min microsoft_workers max_workers)
  | .google => max 1 (min google_workers max_workers)
  | .other => max 1 max_workers

/-- Scheduling events of the worker pool: task `t` enters its category
semaphore (`start`) or leaves it (`finish`). -/
inductive PoolEvent where
  | start (t : Nat)
  | finish (t : Nat)
deriving Repr, DecidableEq

/-- Number of tasks of category `p` currently inside their semaphore
after the event sequence `es`. -/
def runningCount (classify : Nat → Provider) (p : Provider)
    (es : List PoolEvent) : Nat :=
  es.foldl
    (fun n e =>
      match e with
      | .start t => if classify t = p then n + 1 else n
      | .finish t => if classify t = p then n - 1 else n) 0

/-- Event sequences the semaphore discipline of `run_parallel` can
produce: a task starts only when its category's `BoundedSemaphore` has a
free slot (`with sems.get(prov, sems['other']):` blocks otherwise), and
only a running task can finish (the `with` block releases on exit,
regardless of outcome). -/
inductive ValidTrace (classify : Nat → Provider) (caps : Provider → Nat) :
    List PoolEvent → Prop where
  | nil : ValidTrace classify caps []
  | start : ∀ es t, ValidTrace classify caps es →
      runningCount classify (classify t) es < caps (classify t) →
      ValidTrace classify caps (es ++ [.start t])
  | finish : ∀ es t, ValidTrace classify caps es →
      0 < runningCount classify (classify t) es →
      ValidTrace classify caps (es ++ [.finish t])

/-! Section: aggregation, resume filtering, manifest version cache. -/

/-- One iteration of the counting loop of `write_json_summary` over
`(successful, failed, updated, no_updates)`. -/
def countStep (acc : Nat × Nat × Nat × Nat) (r : UpdateResult) :
    Nat × Nat × Nat × Nat :=
  if r.success then
    if r.updated then (acc.1 + 1, acc.2.1, acc.2.2.1 + 1, acc.2.2.2)
    else (acc.1 + 1, acc.2.1, acc.2.2.1, acc.2.2.2 + 1)
  else (acc.1, acc.2.1 + 1, acc.2.2.1, acc.2.2.2)

/-- The single-pass count classification of `write_json_summary`:
`(successful, failed, updated, no_updates)`. -/
def summaryCounts (results : List UpdateResult) : Nat × Nat × Nat × Nat :=
  results.foldl countStep (0, 0, 0, 0)

/-- One entry of the previous summary's `results` array as consumed by
`filter_resume_paths`: `script` is `item.get('script')` (empty for a
missing or falsy value), `success` is `bool(item.get('success', False))`. -/
structure ResumeItem where
  script : Str
  success : Bool
deriving Repr, DecidableEq

/-- The `failed_scripts` set comprehension. -/
def failedScripts (items : List ResumeItem) : List Str :=
  items.filterMap
    (fun it => if it.success = false ∧ ¬it.script.isEmpty then some it.script
               else none)

/-- Model of `filter_resume_paths(script_paths, resume_path)`: `prev = none`
models a missing or unparseable summary file (the `except` branch);
script paths are identified by name, which is all the source compares. -/
def filter_resume_paths (paths : List Str) (prev : Option (List ResumeItem)) :
    List Str :=
  match prev with
  | none => paths
  | some items =>
    let failed := failedScripts items
    if failed.isEmpty then paths
    else paths.filter (fun p => failed.contains p)

/-- On-disk manifest state for one app, as `get_manifest_version`
distinguishes it: missing file (`FileNotFoundError`), any other read or
parse failure, a file over `MAX_MANIFEST_SIZE`, or a readable manifest
whose `version` field stringifies to the given value. -/
inductive ManifestFile where
  | missing
  | unreadable
  | tooLarge
  | ok (version : Str)

/-- The version string `get_manifest_version` computes from disk: every
failure path stores `""`, success stores `str(...).strip()`. -/
def manifestValue : ManifestFile → Str
  | .missing => []
  | .unreadable => []
  | .tooLarge => []
  | .ok v => pyStrip v

/-- Model of `get_manifest_version(app_name)`: cache-first; on a miss the disk is
consulted once and the outcome (or `""`) is cached.  Returns the value,
the updated cache, and whether the disk was accessed. -/
def get_manifest_version (disk : Str → ManifestFile) (cache : Cache)
    (app : Str) : Str × Cache × Bool :=
  match cacheLookup cache app with
  | some v => (v, cache, false)
  | none =>
    let v := manifestValue (disk app)
    (v, cacheInsert cache app v, true)

/-! Section: helper lemmas. -/

/-- Attempts of the retry loop are bounded by the remaining budget. -/
theorem retryFrom_attempts_le (exec : Nat → UpdateResult) :
    ∀ remaining attempt, (retryFrom exec attempt remaining).attempts ≤ remaining + 1 := by
  intro remaining
  induction remaining with
  | zero => intro attempt; simp [retryFrom]
  | succ n ih =>
    intro attempt
    simp only [retryFrom]
    split
    · simp
    · simpa using Nat.succ_le_succ (ih (attempt + 1))

/-- The retry loop returns the first success among the budgeted attempts. -/
theorem retryFrom_first_success (exec : Nat → UpdateResult) :
    ∀ k remaining attempt, k ≤ remaining →
      (∀ i, i < k → (exec (attempt + i)).success = false) →
      (exec (attempt + k)).success = true →
      (retryFrom exec attempt remaining).result = exec (attempt + k) ∧
      (retryFrom exec attempt remaining).attempts = k + 1 := by
  intro k
  induction k with
  | zero =>
    intro remaining attempt _ _ hsucc
    cases remaining with
    | zero => simp [retryFrom]
    | succ n => simp only [retryFrom]; rw [if_pos (by simpa using hsucc)]; simp
  | succ k ih =>
    intro remaining attempt hle hfail hsucc
    cases remaining with
    | zero => omega
    | succ n =>
      have h0 : (exec attempt).success = false := by
        simpa using hfail 0 (Nat.succ_pos k)
      have hrec := ih n (attempt + 1) (Nat.le_of_succ_le_succ hle)
        (fun i hi => by
          have hx : attempt + 1 + i = attempt + (i + 1) := by omega
          rw [hx]; exact hfail (i + 1) (Nat.succ_lt_succ hi))
        (by
          have hx : attempt + 1 + k = attempt + (k + 1) := by omega
          rw [hx]; exact hsucc)
      simp only [retryFrom, h0, Bool.false_eq_true, if_false]
      refine ⟨?_, ?_⟩
      · rw [hrec.1]
        have hx : attempt + 1 + k = attempt + (k + 1) := by omega
        rw [hx]
      · rw [hrec.2]

/-- On an always-failing task the retry loop exhausts its budget. -/
theorem retryFrom_all_fail (exec : Nat → UpdateResult)
    (hfail : ∀ i, (exec i).success = false) :
    ∀ remaining attempt, retryFrom exec attempt remaining =
      ⟨exec (attempt + remaining), remaining + 1,
        (List.range remaining).map (fun i => min 30 (2 ^ (attempt + i + 1)))⟩ := by
  intro remaining
  induction remaining with
  | zero => intro attempt; simp [retryFrom]
  | succ n ih =>
    intro attempt
    simp only [retryFrom, hfail attempt, Bool.false_eq_true, if_false]
    rw [ih (attempt + 1)]
    simp only [RetryTrace.mk.injEq]
    refine ⟨congrArg exec (by omega), trivial, ?_⟩
    rw [List.range_succ_eq_map, List.map_cons, List.map_map]
    refine congrArg₂ List.cons (by norm_num) (List.map_congr_left ?_)
    intro i _
    simp only [Function.comp_apply]
    have hx : attempt + 1 + i + 1 = attempt + (i + 1) + 1 := by omega
    rw [hx]

/-- Claim C2: the retry wrapper `run_update_script_with_retry` with
budget `retries` executes the underlying task at most `retries + 1`
times; it returns the first successful result as soon as one occurs; on
a task failing every attempt it makes exactly `retries + 1` attempts,
returns the last failing result, and sleeps `min(30, 2 ** attempt)`
seconds between consecutive failed attempts (for the incremented attempt
counter `1, 2, ...`); being a total function it always returns a result,
even for `retries = 0`. -/
theorem run_update_script_with_retry_spec (exec : Nat → UpdateResult)
    (retries : Nat) :
    (run_update_script_with_retry exec retries).attempts ≤ retries + 1 ∧
    (∀ k, k ≤ retries → (∀ i, i < k → (exec i).success = false) →
      (exec k).success = true →
      (run_update_script_with_retry exec retries).result = exec k ∧
      (run_update_script_with_retry exec retries).attempts = k + 1) ∧
    ((∀ i, (exec i).success = false) →
      (run_update_script_with_retry exec retries).result = exec retries ∧
      (run_update_script_with_retry exec retries).attempts = retries + 1 ∧
      (run_update_script_with_retry exec retries).sleeps =
        (List.range retries).map (fun i => min 30 (2 ^ (i + 1)))) := by
  refine ⟨retryFrom_attempts_le exec retries 0, ?_, ?_⟩
  · intro k hk hfail hsucc
    have := retryFrom_first_success exec k retries 0 hk
      (fun i hi => by simpa using hfail i hi) (by simpa using hsucc)
    simpa [run_update_script_with_retry] using this
  · intro hfail
    have := retryFrom_all_fail exec hfail retries 0
    rw [run_update_script_with_retry, this]
    simp

/-- Witness for C2: an always-failing task with `retries = 2` is
attempted exactly 3 times and sleeps 2 then 4 seconds. -/
theorem run_update_script_with_retry_spec_witness :
    (∀ i : Nat,
      ((fun _ => (⟨"s".data, false, [], 0, false⟩ : UpdateResult)) i).success = false) ∧
    (run_update_script_with_retry
      (fun _ => (⟨"s".data, false, [], 0, false⟩ : UpdateResult)) 2).attempts = 3 ∧
    (run_update_script_with_retry
      (fun _ => (⟨"s".data, false, [], 0, false⟩ : UpdateResult)) 2).sleeps = [2, 4] := by
  have h := (run_update_script_with_retry_spec
    (fun _ => (⟨"s".data, false, [], 0, false⟩ : UpdateResult)) 2).2.2
    (fun _ => rfl)
  exact ⟨fun _ => rfl, h.2.1, h.2.2.trans (by decide)⟩

/-- Claim C10: `get_manifest_version` is idempotent within a run: the
first call for an app fixes the cached value (the stripped manifest
version, or the empty string for a missing, unreadable or oversized
manifest, without raising), and every later call for the same app
returns exactly that string with no further disk access, even against a
changed disk. -/
theorem get_manifest_version_idempotent (disk disk' : Str → ManifestFile)
    (cache : Cache) (app : Str) :
    (get_manifest_version disk' (get_manifest_version disk cache app).2.1 app =
      ((get_manifest_version disk cache app).1,
       (get_manifest_version disk cache app).2.1, false)) ∧
    (cacheLookup cache app = none →
      get_manifest_version disk cache app =
        (manifestValue (disk app),
         cacheInsert cache app (manifestValue (disk app)), true)) ∧
    (manifestValue .missing = [] ∧ manifestValue .unreadable = [] ∧
      manifestValue .tooLarge = []) := by
  refine ⟨?_, ?_, rfl, rfl, rfl⟩
  · cases h : cacheLookup cache app with
    | some v => simp [get_manifest_version, h]
    | none => simp [get_manifest_version, h, cacheInsert, cacheLookup]
  · intro h
    simp [get_manifest_version, h]

/-- Witness for C10: a missing manifest caches the empty string and the
second call does not touch the (changed) disk. -/
theorem get_manifest_version_idempotent_witness :
    cacheLookup [] "a".data = none ∧
    get_manifest_version (fun _ => ManifestFile.missing) [] "a".data =
      ([], [("a".data, [])], true) ∧
    get_manifest_version (fun _ => ManifestFile.ok "9.9".data)
      (get_manifest_version (fun _ => ManifestFile.missing) [] "a".data).2.1
      "a".data =
      ((get_manifest_version (fun _ => ManifestFile.missing) [] "a".data).1,
       (get_manifest_version (fun _ => ManifestFile.missing) [] "a".data).2.1,
       false) := by
  have h := get_manifest_version_idempotent (fun _ => ManifestFile.missing)
    (fun _ => ManifestFile.ok "9.9".data) [] "a".data
  exact ⟨rfl, (h.2.1 rfl).trans (by rfl), h.1⟩

/-- One step of the count classification. -/
theorem countStep_spec (acc : Nat × Nat × Nat × Nat) (r : UpdateResult) :
    countStep acc r =
      (acc.1 + (countStep (0, 0, 0, 0) r).1,
       acc.2.1 + (countStep (0, 0, 0, 0) r).2.1,
       acc.2.2.1 + (countStep (0, 0, 0, 0) r).2.2.1,
       acc.2.2.2 + (countStep (0, 0, 0, 0) r).2.2.2) := by
  rcases acc with ⟨s, f, u, n⟩
  by_cases hs : r.success <;> by_cases hu : r.updated <;>
    simp [countStep, hs, hu]

/-- Folding the count step from any accumulator adds the counts from
zero. -/
theorem foldl_countStep (results : List UpdateResult) :
    ∀ acc : Nat × Nat × Nat × Nat,
      results.foldl countStep acc =
        (acc.1 + (summaryCounts results).1,
         acc.2.1 + (summaryCounts results).2.1,
         acc.2.2.1 + (summaryCounts results).2.2.1,
         acc.2.2.2 + (summaryCounts results).2.2.2) := by
  induction results with
  | nil => intro acc; simp [summaryCounts]
  | cons r rest ih =>
    intro acc
    have hz : summaryCounts (r :: rest) = rest.foldl countStep (countStep (0, 0, 0, 0) r) := rfl
    rw [hz, ih (countStep (0, 0, 0, 0) r)]
    simp only [List.foldl_cons]
    rw [ih (countStep acc r), countStep_spec acc r]
    simp [Nat.add_assoc]

/-- Claim C5: every `UpdateResult` the system produces satisfies
`success = false → updated = false` on every failure path of
`run_update_script` (nonzero exit, timeout, spawn exception) and on the
worker-pool exception path, and the single-pass counts of
`write_json_summary` satisfy `total = successful + failed` and
`successful = updated + no_updates` for every result list. -/
theorem taskresult_failure_invariant :
    (∀ (name : Str) (outcome : ProcOutcome) (timeout dur : Nat)
        (pref : Bool) (cache : Cache),
      (run_update_script name outcome timeout dur pref cache).1.success = false →
      (run_update_script name outcome timeout dur pref cache).1.updated = false) ∧
    (∀ name msg, (pool_exception_result name msg).success = false ∧
      (pool_exception_result name msg).updated = false) ∧
    (∀ results : List UpdateResult,
      results.length = (summaryCounts results).1 + (summaryCounts results).2.1 ∧
      (summaryCounts results).1 =
        (summaryCounts results).2.2.1 + (summaryCounts results).2.2.2) := by
  refine ⟨?_, fun name msg => ⟨rfl, rfl⟩, ?_⟩
  · intro name outcome timeout dur pref cache h
    cases outcome with
    | completed rc stdout stderr =>
      by_cases hrc : rc = 0
      · simp [run_update_script, hrc] at h
      · simp [run_update_script, hrc]
    | timeout => rfl
    | exc msg => rfl
  · intro results
    induction results with
    | nil => simp [summaryCounts]
    | cons r rest ih =>
      have hz : summaryCounts (r :: rest) =
          rest.foldl countStep (countStep (0, 0, 0, 0) r) := rfl
      rw [hz, foldl_countStep rest (countStep (0, 0, 0, 0) r)]
      by_cases hs : r.success <;> by_cases hu : r.updated <;>
        simp [countStep, hs, hu, List.length_cons] <;> omega

/-- Witness for C5: a timed-out task yields `success = false` and the
invariant forces `updated = false`. -/
theorem taskresult_failure_invariant_witness :
    (run_update_script "s".data ProcOutcome.timeout 5 1 false []).1.success = false ∧
    (run_update_script "s".data ProcOutcome.timeout 5 1 false []).1.updated = false := by
  exact ⟨rfl, taskresult_failure_invariant.1 "s".data ProcOutcome.timeout 5 1 false [] rfl⟩

/-- Number of failed results in a list. -/
def countFailures (rs : List UpdateResult) : Nat :=
  (rs.filter (fun r => r.success = false)).length

/-- The sequential loop never returns more results than tasks. -/
theorem run_sequentialAux_length_le (exec : Str → UpdateResult)
    (ff : Bool) (mf : Nat) :
    ∀ scripts failures,
      (run_sequentialAux exec ff mf scripts failures).1.length ≤ scripts.length := by
  intro scripts
  induction scripts with
  | nil => intro failures; simp [run_sequentialAux]
  | cons s rest ih =>
    intro failures
    simp only [run_sequentialAux]
    split
    · simpa using ih failures
    · split
      · simp
      · simpa using ih (failures + 1)

/-- If the break never fired, the loop produced one result per task. -/
theorem run_sequentialAux_unterminated (exec : Str → UpdateResult)
    (ff : Bool) (mf : Nat) :
    ∀ scripts failures,
      (run_sequentialAux exec ff mf scripts failures).2 = false →
      (run_sequentialAux exec ff mf scripts failures).1 = scripts.map exec := by
  intro scripts
  induction scripts with
  | nil => intro failures _; simp [run_sequentialAux]
  | cons s rest ih =>
    intro failures h
    by_cases hs : (exec s).success
    · simp only [run_sequentialAux, hs] at h ⊢
      simp at h ⊢
      exact ih failures h
    · by_cases hg : (ff = true ∨ (¬mf = 0 ∧ mf ≤ failures + 1))
      · exfalso
        simp only [run_sequentialAux, hs] at h
        simp only [Bool.false_eq_true, if_false] at h
        simp [hg] at h
      · simp only [run_sequentialAux, hs] at h ⊢
        simp only [Bool.false_eq_true, if_false] at h ⊢
        simp [hg] at h ⊢
        exact ih (failures + 1) h

/-- With `fail_fast` the loop stops right at the first failing task. -/
theorem run_sequentialAux_fail_fast (exec : Str → UpdateResult) (mf : Nat)
    (s : Str) (post : List Str) (hs : (exec s).success = false) :
    ∀ pre failures, (∀ p ∈ pre, (exec p).success = true) →
      run_sequentialAux exec true mf (pre ++ s :: post) failures =
        (pre.map exec ++ [exec s], true) := by
  intro pre
  induction pre with
  | nil =>
    intro failures _
    simp [run_sequentialAux, hs]
  | cons p rest ih =>
    intro failures hpre
    have hp : (exec p).success = true := hpre p (List.mem_cons_self p rest)
    have hih := ih failures (fun q hq => hpre q (List.mem_cons_of_mem p hq))
    have h1 := congrArg Prod.fst hih
    have h2 := congrArg Prod.snd hih
    simp only [List.cons_append, run_sequentialAux, hp, if_true, List.append_eq]
    rw [h1, h2]
    simp

/-- Bounded and exact failure counts of the `max_fail` policy. -/
theorem run_sequentialAux_max_fail (exec : Str → UpdateResult) (mf : Nat) :
    ∀ scripts failures, failures < mf →
      countFailures ((run_sequentialAux exec false mf scripts failures).1) ≤
        mf - failures ∧
      ((run_sequentialAux exec false mf scripts failures).2 = true →
        countFailures ((run_sequentialAux exec false mf scripts failures).1) =
          mf - failures) := by
  intro scripts
  induction scripts with
  | nil =>
    intro failures h
    simp [run_sequentialAux, countFailures]
  | cons s rest ih =>
    intro failures hlt
    by_cases hs : (exec s).success
    · have hrec := ih failures hlt
      simp only [run_sequentialAux, hs, if_true]
      constructor
      · simpa [countFailures, hs] using hrec.1
      · intro ht
        simpa [countFailures, hs] using hrec.2 (by simpa using ht)
    · by_cases hbreak : mf ≤ failures + 1
      · have hmf : mf ≠ 0 := by omega
        have hguard : (false || (decide (mf ≠ 0) && decide (mf ≤ failures + 1))) = true := by
          simp [hmf, hbreak]
        simp only [run_sequentialAux, hs, Bool.false_eq_true, if_false, hguard,
          if_true]
        have hone : mf - failures = 1 := by omega
        simp [countFailures, hs, hone]
      · have hguard : (false || (decide (mf ≠ 0) && decide (mf ≤ failures + 1))) = false := by
          simp [hbreak]
        have hrec := ih (failures + 1) (by omega)
        simp only [run_sequentialAux, hs, Bool.false_eq_true, if_false, hguard,
          Bool.false_eq_true, if_false]
        have hcons : countFailures
            (exec s :: (run_sequentialAux exec false mf rest (failures + 1)).1) =
            countFailures ((run_sequentialAux exec false mf rest (failures + 1)).1) + 1 := by
          simp [countFailures, hs]
        constructor
        · rw [hcons]
          have := hrec.1
          omega
        · intro ht
          rw [hcons, hrec.2 (by simpa using ht)]
          omega

/-- Claim C3 (amended): in sequential mode, `fail_fast` stops right
after the first failing task (the results are the successful prefix plus
that failure, later tasks are never invoked) and `max_fail > 0` stops
once `max_fail` failures have accumulated; the result list is never
longer than the task list, and a `fail_fast` termination yields a
strictly shorter list exactly when tasks remained after the failure; an
unterminated run returns one result per task in discovery order. -/
theorem run_sequential_spec :
    (∀ (exec : Str → UpdateResult) (scripts : List Str) (ff : Bool) (mf : Nat),
      (run_sequential exec scripts ff mf).1.length ≤ scripts.length) ∧
    (∀ (exec : Str → UpdateResult) (scripts : List Str) (ff : Bool) (mf : Nat),
      (run_sequential exec scripts ff mf).2 = false →
      (run_sequential exec scripts ff mf).1 = scripts.map exec) ∧
    (∀ (exec : Str → UpdateResult) (pre : List Str) (s : Str) (post : List Str)
        (mf : Nat),
      (∀ p ∈ pre, (exec p).success = true) → (exec s).success = false →
      run_sequential exec (pre ++ s :: post) true mf =
        (pre.map exec ++ [exec s], true) ∧
      (post ≠ [] →
        (run_sequential exec (pre ++ s :: post) true mf).1.length <
          (pre ++ s :: post).length)) ∧
    (∀ (exec : Str → UpdateResult) (scripts : List Str) (mf : Nat), 0 < mf →
      countFailures ((run_sequential exec scripts false mf).1) ≤ mf ∧
      ((run_sequential exec scripts false mf).2 = true →
        countFailures ((run_sequential exec scripts false mf).1) = mf)) := by
  refine ⟨?_, ?_, ?_, ?_⟩
  · intro exec scripts ff mf
    exact run_sequentialAux_length_le exec ff mf scripts 0
  · intro exec scripts ff mf
    exact run_sequentialAux_unterminated exec ff mf scripts 0
  · intro exec pre s post mf hpre hs
    have heq := run_sequentialAux_fail_fast exec mf s post hs pre 0 hpre
    refine ⟨heq, ?_⟩
    intro hpost
    rw [run_sequential, heq]
    simp only [List.length_append, List.length_map, List.length_cons,
      List.length_nil]
    have : 0 < post.length := List.length_pos.mpr hpost
    omega
  · intro exec scripts mf hmf
    have := run_sequentialAux_max_fail exec mf scripts 0 hmf
    simpa [run_sequential] using this

/-- Counterexample for C3 as stated: with `fail_fast`, a run whose final
task fails fires the break (the run is terminated early) yet its result
list has exactly the input length, contradicting strictly shorter. -/
theorem run_sequential_strictly_shorter_cex :
    (run_sequential
      (fun s => if s = "ok".data then ⟨s, true, [], 0, false⟩
                else ⟨s, false, [], 0, false⟩)
      ["ok".data, "fail".data] true 0).2 = true ∧
    ¬((run_sequential
      (fun s => if s = "ok".data then ⟨s, true, [], 0, false⟩
                else ⟨s, false, [], 0, false⟩)
      ["ok".data, "fail".data] true 0).1.length <
        (["ok".data, "fail".data] : List Str).length) := by
  exact ⟨rfl, by decide⟩

/-- Witness for C3 (the spec's own scenario): tasks `[ok, fail, after]`
under `fail_fast` produce exactly two results ending in the failure, and
`after` is never part of the result. -/
theorem run_sequential_spec_witness :
    run_sequential
      (fun s => if s = "update-fail.py".data
                then ⟨s, false, "error".data, 0, false⟩
                else ⟨s, true, "ok".data, 0, false⟩)
      ["update-ok.py".data, "update-fail.py".data, "update-after.py".data]
      true 0 =
      ([⟨"update-ok.py".data, true, "ok".data, 0, false⟩,
        ⟨"update-fail.py".data, false, "error".data, 0, false⟩], true) := by
  have h := (run_sequential_spec.2.2.1
    (fun s => if s = "update-fail.py".data
              then ⟨s, false, "error".data, 0, false⟩
              else ⟨s, true, "ok".data, 0, false⟩)
    ["update-ok.py".data] "update-fail.py".data ["update-after.py".data] 0
    (by decide) (by decide)).1
  exact h.trans (by decide)

/-- Code-point string comparison is transitive. -/
theorem strLe_trans : ∀ a b c : Str, strLe a b = true → strLe b c = true →
    strLe a c = true := by
  intro a
  induction a with
  | nil => intro b c _ _; rfl
  | cons x xs ih =>
    intro b c hab hbc
    cases b with
    | nil => simp [strLe] at hab
    | cons y ys =>
      cases c with
      | nil => simp [strLe] at hbc
      | cons z zs =>
        simp only [strLe] at hab hbc ⊢
        split_ifs at hab hbc ⊢ <;>
          first
            | rfl
            | omega
            | exact ih ys zs hab hbc

/-- Code-point string comparison is total. -/
theorem strLe_total : ∀ a b : Str, (strLe a b || strLe b a) = true := by
  intro a
  induction a with
  | nil => intro b; simp [strLe]
  | cons x xs ih =>
    intro b
    cases b with
    | nil => simp [strLe]
    | cons y ys =>
      simp only [strLe]
      by_cases h1 : x.toNat < y.toNat
      · simp [h1]
      · by_cases h2 : y.toNat < x.toNat
        · simp [h1, h2]
        · simp only [h1, h2, if_false]
          exact ih ys

/-- Claim C1: for every task list and every completion order of the
worker pool, the result list returned by `run_parallel` is sorted in
ascending order of `script_name` (so it is a fixed point of sorting by
that key) and is a permutation of one result per task. -/
theorem run_parallel_sorted (tasks order : List Str)
    (outcome : Str → UpdateResult) (hperm : order.Perm tasks) :
    List.Pairwise
      (fun a b => strLe a.script_name b.script_name = true)
      (run_parallel order outcome) ∧
    (run_parallel order outcome).Perm (tasks.map outcome) := by
  constructor
  · exact List.sorted_mergeSort
      (fun a b c hab hbc => strLe_trans a.script_name b.script_name c.script_name hab hbc)
      (fun a b => strLe_total a.script_name b.script_name)
      (order.map outcome)
  · exact (List.mergeSort_perm (order.map outcome) _).trans (hperm.map outcome)

/-- Witness for C1: a two-task pool completing in reverse name order
still returns a name-sorted permutation of the per-task results. -/
theorem run_parallel_sorted_witness :
    (["b".data, "a".data] : List Str).Perm ["a".data, "b".data] ∧
    List.Pairwise
      (fun r s : UpdateResult => strLe r.script_name s.script_name = true)
      (run_parallel ["b".data, "a".data]
        (fun s => ⟨s, true, [], 0, false⟩)) ∧
    (run_parallel ["b".data, "a".data] (fun s => ⟨s, true, [], 0, false⟩)).Perm
      ((["a".data, "b".data] : List Str).map (fun s => ⟨s, true, [], 0, false⟩)) := by
  have h := run_parallel_sorted ["a".data, "b".data] ["b".data, "a".data]
    (fun s => ⟨s, true, [], 0, false⟩) (List.Perm.swap "a".data "b".data [])
  exact ⟨List.Perm.swap "a".data "b".data [], h.1, h.2⟩

/-- Appending one event changes the running count of its own category by
one and leaves other categories unchanged. -/
theorem runningCount_snoc (classify : Nat → Provider) (p : Provider)
    (es : List PoolEvent) (e : PoolEvent) :
    runningCount classify p (es ++ [e]) =
      match e with
      | .start t => if classify t = p then runningCount classify p es + 1
                    else runningCount classify p es
      | .finish t => if classify t = p then runningCount classify p es - 1
                     else runningCount classify p es := by
  cases e <;> simp [runningCount, List.foldl_append]

/-- Claim C9 (amended): under the semaphore discipline of
`run_parallel`, at no point do more than
`max(1, min(category_limit, max_workers))` tasks of one category run
concurrently (for `other`, `max(1, max_workers)`); each task acquires
its category's bounded semaphore before running and releases it on
completion regardless of outcome, which is what `ValidTrace` encodes. -/
theorem run_parallel_semaphore_bound (gw mw gow maxw : Nat)
    (classify : Nat → Provider) (es : List PoolEvent)
    (h : ValidTrace classify (semCapacity gw mw gow maxw) es) :
    ∀ p, runningCount classify p es ≤ semCapacity gw mw gow maxw p := by
  induction h with
  | nil => intro p; simp [runningCount]
  | start es t hv hlt ih =>
    intro p
    rw [runningCount_snoc]
    simp only
    by_cases hc : classify t = p
    · rw [if_pos hc, ← hc]
      exact hlt
    · rw [if_neg hc]
      exact ih p
  | finish es t hv hpos ih =>
    intro p
    rw [runningCount_snoc]
    simp only
    by_cases hc : classify t = p
    · rw [if_pos hc]
      exact le_trans (Nat.sub_le _ _) (ih p)
    · rw [if_neg hc]
      exact ih p

/-- Counterexample for C9 as stated: with `github_workers = 0` and
`max_workers = 1` the semaphore is built with capacity
`max(1, min(0, 1)) = 1`, so a github task can legitimately start — one
task of the category runs although `min(category_limit, max_workers) = 0`. -/
theorem run_parallel_semaphore_min_cex :
    ValidTrace (fun _ => Provider.github) (semCapacity 0 3 4 1)
      [PoolEvent.start 0] ∧
    ¬(runningCount (fun _ => Provider.github) Provider.github
        [PoolEvent.start 0] ≤ min 0 1) := by
  constructor
  · exact ValidTrace.start [] 0 ValidTrace.nil (by decide)
  · decide

/-- Witness for C9: a one-event trace respects the amended bound. -/
theorem run_parallel_semaphore_bound_witness :
    ValidTrace (fun _ => Provider.github) (semCapacity 3 3 4 2)
      [PoolEvent.start 0] ∧
    runningCount (fun _ => Provider.github) Provider.github
      [PoolEvent.start 0] ≤ semCapacity 3 3 4 2 Provider.github := by
  have ht : ValidTrace (fun _ => Provider.github) (semCapacity 3 3 4 2)
      [PoolEvent.start 0] :=
    ValidTrace.start [] 0 ValidTrace.nil (by decide)
  exact ⟨ht, run_parallel_semaphore_bound 3 3 4 2 (fun _ => Provider.github)
    [PoolEvent.start 0] ht Provider.github⟩

/-- Claim C8: `classify_provider` returns the override map's value
whenever the map has a non-empty entry for the exact script name or,
failing that, for the derived package name, with no content inspection
(any file outcome gives the same answer); otherwise it inspects the
first 4KB of the script content for domain substrings with priority
github before microsoft before google; with no match, or on any I/O
error reading the script, it returns `other`; being a total function it
never raises. -/
theorem classify_provider_spec :
    (∀ (name : Str) (pm : Cache) (file : Option Str) (m : Str),
      cacheLookup pm name = some m → m.isEmpty = false →
      classify_provider name pm file = m) ∧
    (∀ (name : Str) (pm : Cache) (file : Option Str) (m : Str),
      truthyStr (cacheLookup pm name) = none →
      cacheLookup pm (derivePkg name) = some m → m.isEmpty = false →
      classify_provider name pm file = m) ∧
    (∀ (name : Str) (pm : Cache),
      truthyStr (cacheLookup pm name) = none →
      truthyStr (cacheLookup pm (derivePkg name)) = none →
      classify_provider name pm none = "other".data) ∧
    (∀ (name : Str) (pm : Cache) (file : Option Str),
      truthyStr (cacheLookup pm name) = none →
      truthyStr (cacheLookup pm (derivePkg name)) = none →
      classify_provider name pm file = classify_content file) ∧
    (∀ full : Str,
      ((hasSub "github.com".data (full.take 4000) ||
          hasSub "api.github.com".data (full.take 4000)) = true →
        classify_content (some full) = "github".data) ∧
      ((hasSub "github.com".data (full.take 4000) ||
          hasSub "api.github.com".data (full.take 4000)) = false →
        MICROSOFT_DOMAINS.any (fun d => hasSub d (full.take 4000)) = true →
        classify_content (some full) = "microsoft".data) ∧
      ((hasSub "github.com".data (full.take 4000) ||
          hasSub "api.github.com".data (full.take 4000)) = false →
        MICROSOFT_DOMAINS.any (fun d => hasSub d (full.take 4000)) = false →
        GOOGLE_DOMAINS.any (fun d => hasSub d (full.take 4000)) = true →
        classify_content (some full) = "google".data) ∧
      ((hasSub "github.com".data (full.take 4000) ||
          hasSub "api.github.com".data (full.take 4000)) = false →
        MICROSOFT_DOMAINS.any (fun d => hasSub d (full.take 4000)) = false →
        GOOGLE_DOMAINS.any (fun d => hasSub d (full.take 4000)) = false →
        classify_content (some full) = "other".data)) := by
  refine ⟨?_, ?_, ?_, ?_, ?_⟩
  · intro name pm file m hm hne
    simp [classify_provider, hm, truthyStr, hne]
  · intro name pm file m h1 hm hne
    simp only [classify_provider, hm]
    rw [h1]
    simp [truthyStr, hne]
  · intro name pm h1 h2
    simp [classify_provider, h1, h2, classify_content]
  · intro name pm file h1 h2
    simp [classify_provider, h1, h2]
  · intro full
    refine ⟨?_, ?_, ?_, ?_⟩
    · intro hg
      simp [classify_content, hg]
    · intro hg hms
      simp [classify_content, hg, hms]
    · intro hg hms hgo
      simp [classify_content, hg, hms, hgo]
    · intro hg hms hgo
      simp [classify_content, hg, hms, hgo]

/-- Witness for C8: a non-empty override for the exact name wins
regardless of file content, and a github-domain file classifies as
github. -/
theorem classify_provider_spec_witness :
    classify_provider "update-x.py".data
      [("update-x.py".data, "google".data)]
      (some "uses learn.microsoft.com".data) = "google".data ∧
    classify_provider "update-y.py".data []
      (some "fetch https://api.github.com/repos".data) = "github".data := by
  constructor
  · exact classify_provider_spec.1 "update-x.py".data
      [("update-x.py".data, "google".data)]
      (some "uses learn.microsoft.com".data) "google".data rfl rfl
  · have h := (classify_provider_spec.2.2.2.1 "update-y.py".data []
      (some "fetch https://api.github.com/repos".data) rfl rfl)
    rw [h]
    exact (classify_provider_spec.2.2.2.2
      "fetch https://api.github.com/repos".data).1 (by decide)

/-- Membership characterization of the `failed_scripts` set. -/
theorem mem_failedScripts (items : List ResumeItem) (p : Str) :
    p ∈ failedScripts items ↔
      ∃ it ∈ items, it.success = false ∧ it.script.isEmpty = false ∧
        it.script = p := by
  simp only [failedScripts, List.mem_filterMap]
  constructor
  · rintro ⟨it, hmem, hit⟩
    by_cases hc : it.success = false ∧ ¬it.script.isEmpty
    · rw [if_pos hc] at hit
      exact ⟨it, hmem, hc.1, by simpa using hc.2, Option.some.inj hit⟩
    · rw [if_neg hc] at hit
      exact absurd hit (Option.noConfusion)
  · rintro ⟨it, hmem, hsucc, hscript, heq⟩
    refine ⟨it, hmem, ?_⟩
    rw [if_pos ⟨hsucc, by simp [hscript]⟩, heq]

/-- Claim C6 (amended): the resume filter restricts the task list to
exactly those names recorded with `success = false` (and a truthy
`script` field) in the prior summary; it falls back to the full input
list when the summary is missing or unparseable or when its failed-script
set is empty (zero failures); but when failures exist and none match the
current list the result is empty, not the full list. -/
theorem filter_resume_paths_spec :
    (∀ paths : List Str, filter_resume_paths paths none = paths) ∧
    (∀ (paths : List Str) (items : List ResumeItem),
      failedScripts items = [] →
      filter_resume_paths paths (some items) = paths) ∧
    (∀ (paths : List Str) (items : List ResumeItem),
      failedScripts items ≠ [] →
      filter_resume_paths paths (some items) =
        paths.filter (fun p => (failedScripts items).contains p) ∧
      (∀ p : Str, p ∈ filter_resume_paths paths (some items) ↔
        p ∈ paths ∧ ∃ it ∈ items, it.success = false ∧
          it.script.isEmpty = false ∧ it.script = p)) := by
  refine ⟨fun paths => rfl, ?_, ?_⟩
  · intro paths items h
    simp [filter_resume_paths, h]
  · intro paths items h
    have heq : filter_resume_paths paths (some items) =
        paths.filter (fun p => (failedScripts items).contains p) := by
      simp only [filter_resume_paths]
      rw [if_neg (by simpa [List.isEmpty_iff] using h)]
    refine ⟨heq, ?_⟩
    intro p
    rw [heq, List.mem_filter]
    constructor
    · rintro ⟨hp, hc⟩
      exact ⟨hp, (mem_failedScripts items p).mp (by simpa using hc)⟩
    · rintro ⟨hp, hex⟩
      exact ⟨hp, by simpa using (mem_failedScripts items p).mpr hex⟩

/-- Counterexample for C6 as stated: the prior summary records a failure
for a script outside the current task list, so the failed set is
non-empty, no task matches, and the filter returns the empty list rather
than the full input list. -/
theorem filter_resume_paths_empties_cex :
    filter_resume_paths ["update-a.py".data]
      (some [⟨"update-b.py".data, false⟩]) = [] ∧
    (filter_resume_paths ["update-a.py".data]
      (some [⟨"update-b.py".data, false⟩]) = ["update-a.py".data] → False) := by
  exact ⟨rfl, by decide⟩

/-- Witness for C6: the spec's scenario — `update-a.py` failed and
`update-b.py` succeeded, so filtering keeps exactly `update-a.py`; with
zero failures the list is returned unchanged. -/
theorem filter_resume_paths_spec_witness :
    filter_resume_paths ["update-a.py".data, "update-b.py".data]
      (some [⟨"update-a.py".data, false⟩, ⟨"update-b.py".data, true⟩]) =
      ["update-a.py".data] ∧
    filter_resume_paths ["update-a.py".data, "update-b.py".data]
      (some [⟨"update-a.py".data, true⟩, ⟨"update-b.py".data, true⟩]) =
      ["update-a.py".data, "update-b.py".data] := by
  constructor
  · have h := (filter_resume_paths_spec.2.2
      ["update-a.py".data, "update-b.py".data]
      [⟨"update-a.py".data, false⟩, ⟨"update-b.py".data, true⟩]
      (by decide)).1
    exact h.trans (by decide)
  · exact filter_resume_paths_spec.2.1
      ["update-a.py".data, "update-b.py".data]
      [⟨"update-a.py".data, true⟩, ⟨"update-b.py".data, true⟩] rfl

/-- Claim C4 (amended): whenever the code's structured extraction
succeeds — the greedy regex span parses as a JSON object with an
`updated` key, or, failing that, one of the last up-to-10 non-empty
lines is a standalone JSON object with an `updated` key — the verdict is
authoritative: a boolean `updated = b` yields exactly `(b, ¬b)`, and a
non-empty string `version` in the same object primes the cache for the
derived package name so that a subsequent `get_manifest_version` lookup
returns that string with no disk access, against any disk state. -/
theorem parse_script_output_structured (output name : Str) (pref : Bool)
    (cache : Cache) (fs : List (Str × JVal)) (b : Bool)
    (hex : extractStructured output = some fs)
    (hupd : jget fs "updated".data = some (.jbool b)) :
    (parse_script_output output name pref cache).1 = (b, !b) ∧
    (∀ v : Str, jget fs "version".data = some (.jstr v) → v.isEmpty = false →
      ∀ disk, get_manifest_version disk
          (parse_script_output output name pref cache).2 (derivePkg name) =
        (v, (parse_script_output output name pref cache).2, false)) := by
  have hres : parse_script_output output name pref cache =
      ((jtruthyOpt (jget fs "updated".data),
        !jtruthyOpt (jget fs "updated".data)),
       primeCache cache (derivePkg name) fs) := by
    simp [parse_script_output, hex]
  constructor
  · rw [hres, hupd]
    rfl
  · intro v hver hne disk
    rw [hres]
    simp only [primeCache, hver, hne, Bool.false_eq_true, if_false]
    simp [get_manifest_version, cacheInsert, cacheLookup]

/-- Counterexample for C4 as stated: the output contains the parseable
JSON object `\x7b"updated": false\x7d` (with boolean key `updated`), yet
because the greedy regex span swallows the trailing `x \x7d` the parse
falls through to text heuristics, which return `(True, False)` — not the
claimed `(False, True)`. -/
theorem parse_script_output_embedded_cex :
    jparse "\x7b\"updated\": false\x7d".data =
      some (.jobj [("updated".data, .jbool false)]) ∧
    hasSub "\x7b\"updated\": false\x7d".data
      "\x7b\"updated\": false\x7d x \x7d".data = true ∧
    (parse_script_output "\x7b\"updated\": false\x7d x \x7d".data
      "update-a.py".data false []).1 = (true, false) ∧
    ((parse_script_output "\x7b\"updated\": false\x7d x \x7d".data
      "update-a.py".data false []).1 = (false, true) → False) := by
  exact ⟨rfl, rfl, rfl, by decide⟩

/-- Witness for C4: the spec's concrete example — a structured verdict
with `updated: true` and `version: "1.2.3"` yields `(True, False)` and
primes the cache so the version lookup for package `a` needs no disk. -/
theorem parse_script_output_structured_witness :
    (parse_script_output
      "\x7b\"updated\": true, \"name\": \"a\", \"version\": \"1.2.3\"\x7d".data
      "update-a.py".data false []).1 = (true, false) ∧
    get_manifest_version (fun _ => ManifestFile.missing)
      (parse_script_output
        "\x7b\"updated\": true, \"name\": \"a\", \"version\": \"1.2.3\"\x7d".data
        "update-a.py".data false []).2 "a".data =
      ("1.2.3".data,
       (parse_script_output
         "\x7b\"updated\": true, \"name\": \"a\", \"version\": \"1.2.3\"\x7d".data
         "update-a.py".data false []).2, false) := by
  have h := parse_script_output_structured
    "\x7b\"updated\": true, \"name\": \"a\", \"version\": \"1.2.3\"\x7d".data
    "update-a.py".data false []
    [("updated".data, .jbool true), ("name".data, .jstr "a".data),
     ("version".data, .jstr "1.2.3".data)]
    true rfl rfl
  exact ⟨h.1, h.2 "1.2.3".data rfl rfl (fun _ => ManifestFile.missing)⟩

/-- Claim C7: when the prefer-structured flag is set and the output
carries no structured verdict (neither the embedded regex form nor a
standalone JSON object among the last 10 non-empty lines, i.e.
`extractStructured` finds nothing), `parse_script_output` returns
`(False, False)` without any text heuristic; with the flag unset, the
heuristic-only output `"Update completed successfully"` yields
`updated = True`. -/
theorem parse_script_output_structured_only :
    (∀ (output name : Str) (cache : Cache),
      extractStructured output = none →
      parse_script_output output name true cache = ((false, false), cache)) ∧
    (parse_script_output "Update completed successfully".data
      "update-b.py".data false []).1.1 = true := by
  constructor
  · intro output name cache hex
    simp [parse_script_output, hex]
  · rfl

/-- Witness for C7: the heuristic-only output has no structured verdict,
so forcing structured-only mode yields `(False, False)`. -/
theorem parse_script_output_structured_only_witness :
    extractStructured "Update completed successfully".data = none ∧
    parse_script_output "Update completed successfully".data
      "update-b.py".data true [] = ((false, false), []) := by
  exact ⟨rfl, parse_script_output_structured_only.1
    "Update completed successfully".data "update-b.py".data [] rfl⟩

end UpdateAll
